import Mathlib

/-!
Verification of the ABAP SELECT-statement analysis engine (`src/app/app.py`).

The engine scans source text for SELECT statements with a family of regular
expressions and rewrites each matched statement.  Every regex of the source is
embedded here as an executable character-list scanner with exactly the
semantics the Python `re` module gives that pattern on the statement shapes
involved (leftmost match, lazy/greedy quantifier behaviour, `IGNORECASE`,
non-overlapping substitution).  Strings are modelled as `List Char`; the
static configuration dictionaries are association lists in insertion order.
-/

set_option maxRecDepth 20000

abbrev Str := List Char

/-! ## Character classes (Python `re` semantics, ASCII range) -/

/-- Python `str.lower` / `re.IGNORECASE` folding for ASCII characters. -/
def lowerC (c : Char) : Char :=
  if 65 ≤ c.toNat ∧ c.toNat ≤ 90 then Char.ofNat (c.toNat + 32) else c

/-- Python `str.upper` for ASCII characters. -/
def upperC (c : Char) : Char :=
  if 97 ≤ c.toNat ∧ c.toNat ≤ 122 then Char.ofNat (c.toNat - 32) else c

/-- Python regex `\s`: space, tab, newline, carriage return, vertical tab, form feed. -/
def isSpaceChar (c : Char) : Bool :=
  decide (c = ' ' ∨ c = '\t' ∨ c = '\n' ∨ c.toNat = 13 ∨ c.toNat = 11 ∨ c.toNat = 12)

/-- The character class `[a-zA-Z0-9_]` used for table names and `\b` boundaries. -/
def isWordChar (c : Char) : Bool :=
  decide ((65 ≤ c.toNat ∧ c.toNat ≤ 90) ∨ (97 ≤ c.toNat ∧ c.toNat ≤ 122) ∨
    (48 ≤ c.toNat ∧ c.toNat ≤ 57) ∨ c = '_')

/-- The character class `[a-zA-Z0-9_,\s~]` of the ORDER BY field-list group. -/
def isOBClass (c : Char) : Bool :=
  isWordChar c || isSpaceChar c || c == ',' || c == '~'

def lower (s : Str) : Str := s.map lowerC

def upper (s : Str) : Str := s.map upperC

/-- Case-insensitive prefix test; the pattern is given lower-case. -/
def startsWithCI : Str → Str → Bool
  | [], _ => true
  | _ :: _, [] => false
  | p :: ps, c :: cs => (lowerC c == p) && startsWithCI ps cs

/-- Python `str.strip` of leading whitespace. -/
def trimL (s : Str) : Str := s.dropWhile isSpaceChar

/-- Python `str.strip` of trailing whitespace. -/
def trimR (s : Str) : Str := (s.reverse.dropWhile isSpaceChar).reverse

/-- Python `str.strip`. -/
def trim (s : Str) : Str := trimR (trimL s)

/-- Python `str.rstrip('.')`. -/
def rstripDots (s : Str) : Str := (s.reverse.dropWhile (· == '.')).reverse

/-- Python `str.split(",")` (keeps empty segments). -/
def splitOnComma : Str → List Str
  | [] => [[]]
  | c :: cs =>
    if c = ',' then [] :: splitOnComma cs
    else
      match splitOnComma cs with
      | h :: t => (c :: h) :: t
      | [] => [[c]]

/-- Python substring containment (`pat in s`). -/
def containsSub (pat : Str) : Str → Bool
  | [] => pat.isEmpty
  | c :: cs => pat.isPrefixOf (c :: cs) || containsSub pat cs

/-- Scanner core of `str.replace(pat, "")`: `skip` counts characters still
inside the previous occurrence. -/
def eraseScan (pat : Str) : Nat → Str → Str
  | _, [] => []
  | k + 1, _ :: cs => eraseScan pat k cs
  | 0, c :: cs =>
    if pat ≠ [] ∧ pat.isPrefixOf (c :: cs) then eraseScan pat (pat.length - 1) cs
    else c :: eraseScan pat 0 cs

/-- Python `str.replace(pat, "")` for a fixed non-empty case-sensitive pattern:
removes every non-overlapping occurrence, scanning left to right. -/
def eraseAllSub (pat s : Str) : Str := eraseScan pat 0 s

/-! ## The statement extractor

Regex `(select[\s\S]+?from\s+([a-zA-Z0-9_]+)[\s\S]*?\.)`, `IGNORECASE`,
used with `findall`: non-overlapping leftmost matches, each returning the
whole span (group 1) and the FROM-table name (group 2). -/

/-- Everything up to and including the first `.`; `none` if there is no dot
(the lazy `[\s\S]*?\.` tail of the statement pattern). -/
def takeThroughDot : Str → Option Str
  | [] => none
  | c :: cs => if c = '.' then some [c] else (takeThroughDot cs).map (c :: ·)

/-- Lazy search for `from\s+([a-zA-Z0-9_]+)[\s\S]*?\.` : finds the earliest
`from` (case-insensitive) followed by whitespace and a table name after which
a period still occurs; backtracks to later `from`s when no period follows.
Returns (consumed span, table name). -/
def fromTailMatch : Str → Option (Str × Str)
  | [] => none
  | c :: cs =>
    let s := c :: cs
    let step : Option (Str × Str) := (fromTailMatch cs).map (fun p => (c :: p.1, p.2))
    if startsWithCI ("from".data) s then
      let afterFrom := s.drop 4
      let sp := afterFrom.takeWhile isSpaceChar
      let afterSp := afterFrom.drop sp.length
      let tbl := afterSp.takeWhile isWordChar
      let afterTbl := afterSp.drop tbl.length
      if sp ≠ [] ∧ tbl ≠ [] then
        match takeThroughDot afterTbl with
        | some seg => some (s.take 4 ++ sp ++ tbl ++ seg, tbl)
        | none => step
      else step
    else step

/-- Match attempt of the full statement pattern at the current position:
`select`, at least one lazy character, then `fromTailMatch`.  Returns
(matched span, table name). -/
def selectAttempt (s : Str) : Option (Str × Str) :=
  if startsWithCI ("select".data) s then
    match s.drop 6 with
    | [] => none
    | c :: cs => (fromTailMatch cs).map (fun p => (s.take 6 ++ [c] ++ p.1, p.2))
  else none

/-- Scanner core for `findall`: `skip` counts positions still inside the
previous match (a match of length `n` at `c :: cs` leaves `n - 1` characters
of `cs` to skip). -/
def selectFindAux : Nat → Str → List (Str × Str)
  | _, [] => []
  | k + 1, _ :: cs => selectFindAux k cs
  | 0, c :: cs =>
    match selectAttempt (c :: cs) with
    | some (span, tbl) => (span, tbl) :: selectFindAux (span.length - 1) cs
    | none => selectFindAux 0 cs

/-- `select_full_pattern.findall(code)`. -/
def select_full_findall (code : Str) : List (Str × Str) := selectFindAux 0 code

/-! ## Field-list extraction

`re.match(r"select\s+(.*?)\s+from", stmt, re.IGNORECASE)` — anchored; `.`
does not match a newline; the group is lazy, so the match ends at the first
whitespace-run followed by `from` reachable without crossing a newline.
The leading `\s+` is greedy: its maximal run is tried first with the lazy
group scanning the tail; only when that whole scan fails does the engine
backtrack one whitespace character, which succeeds with an empty group
exactly when the run has length at least two and `from` directly follows
it (further backtracking only repeats tests already tried). -/

/-- Scan for the end of the lazy group: at each position first test
`\s+from` (whitespace run, then `from`), otherwise extend the group by one
non-newline character. -/
def fieldsGroupAux (acc : Str) : Str → Option Str
  | [] => none
  | c :: cs =>
    if isSpaceChar c && startsWithCI ("from".data) ((c :: cs).dropWhile isSpaceChar) then
      some acc.reverse
    else if c = '\n' then none
    else fieldsGroupAux (c :: acc) cs

/-- Group 1 of `re.match(r"select\s+(.*?)\s+from", stmt, re.IGNORECASE)`:
the greedy-run scan, then the one-character backtrack with an empty group. -/
def sel_fields_match (stmt : Str) : Option Str :=
  if startsWithCI ("select".data) stmt then
    let r := stmt.drop 6
    let k := (r.takeWhile isSpaceChar).length
    if k = 0 then none
    else
      match fieldsGroupAux [] (r.drop k) with
      | some g => some g
      | none =>
        if 2 ≤ k ∧ startsWithCI ("from".data) (r.drop k) then some [] else none
  else none

/-! ## JOIN-table extraction

`re.compile(r'\bjoin\s+([a-zA-Z0-9_]+)', re.IGNORECASE).findall(stmt)`. -/

/-- Attempt `\bjoin\s+([a-zA-Z0-9_]+)` at the current position (`prevWord`
says whether the previous character was a word character, for `\b`).
Returns (group, total match length). -/
def joinAttempt (prevWord : Bool) (s : Str) : Option (Str × Nat) :=
  if !prevWord && startsWithCI ("join".data) s then
    let r := s.drop 4
    let sp := r.takeWhile isSpaceChar
    let afterSp := r.drop sp.length
    let tbl := afterSp.takeWhile isWordChar
    if sp ≠ [] ∧ tbl ≠ [] then some (tbl, 4 + sp.length + tbl.length) else none
  else none

/-- Scanner core for the JOIN findall; `prevWord` tracks the character before
the current position. -/
def joinFindAux : Nat → Bool → Str → List Str
  | _, _, [] => []
  | k + 1, _, c :: cs => joinFindAux k (isWordChar c) cs
  | 0, prevWord, c :: cs =>
    match joinAttempt prevWord (c :: cs) with
    | some (tbl, n) => tbl :: joinFindAux (n - 1) true cs
    | none => joinFindAux 0 (isWordChar c) cs

/-- All JOIN table names of a statement, in order. -/
def join_findall (stmt : Str) : List Str := joinFindAux 0 false stmt

/-! ## ORDER BY clause pattern

`re.compile(r"order\s+by\s+([a-zA-Z0-9_,\s~]+)", re.IGNORECASE)` — used with
`search` on the statement (presence + field list) and with `sub` on the
adjusted statement (removal).  The group is greedy over `[a-zA-Z0-9_,\s~]`;
when the character after the second whitespace run is not in the class (or
the string ends there), the engine backtracks one whitespace character into
the group, so a run of two or more whitespace characters after `by` still
matches with a single-whitespace group. -/

/-- Match attempt of the ORDER BY pattern at the current position.  Returns
(group 1, total match length). -/
def obAttempt (s : Str) : Option (Str × Nat) :=
  if startsWithCI ("order".data) s then
    let r1 := s.drop 5
    let w1 := r1.takeWhile isSpaceChar
    if w1 = [] then none
    else
      let r2 := r1.drop w1.length
      if startsWithCI ("by".data) r2 then
        let r3 := r2.drop 2
        let w2 := r3.takeWhile isSpaceChar
        if w2 = [] then none
        else
          let r4 := r3.drop w2.length
          let g := r4.takeWhile isOBClass
          if g = [] then
            if 2 ≤ w2.length then some ([w2.getLastD ' '], 5 + w1.length + 2 + w2.length)
            else none
          else some (g, 5 + w1.length + 2 + w2.length + g.length)
      else none
  else none

/-- `re.search` of the ORDER BY pattern: group 1 of the leftmost match. -/
def order_by_search : Str → Option Str
  | [] => none
  | c :: cs =>
    match obAttempt (c :: cs) with
    | some (g, _) => some g
    | none => order_by_search cs

/-- Scanner core of `re.sub(order_by_pattern, '', s)`: `skip` counts
characters still inside the previous match. -/
def obScan : Nat → Str → Str
  | _, [] => []
  | k + 1, _ :: cs => obScan k cs
  | 0, c :: cs =>
    match obAttempt (c :: cs) with
    | some (_, n) => obScan (n - 1) cs
    | none => c :: obScan 0 cs

/-- `re.sub(r"order\s+by\s+([a-zA-Z0-9_,\s~]+)", '', s, flags=re.IGNORECASE)`. -/
def sub_order_by (s : Str) : Str := obScan 0 s

/-! ## WHERE clause pattern

`re.search(r"\s+where\s+(.+?)\.?$", stmt, re.IGNORECASE)`: `.` does not
cross a newline; `$` matches at the end of the string or just before a final
newline; the lazy group ends at the earliest position from which an optional
period reaches such an end.  When the text ends right after the whitespace
following `where`, the engine backtracks one whitespace character into the
group (a run of two or more whitespace characters is needed). -/

/-- Can `\.?$` match at this remaining text? -/
def dotEndOk (r : Str) : Bool :=
  decide (r = [] ∨ r = ['\n'] ∨ r = ['.'] ∨ r = ['.', '\n'])

/-- Lazy scan for the WHERE group: extend by one non-newline character at a
time, stopping at the first position where `\.?$` matches the rest. -/
def whereGroupAux (acc : Str) : Str → Option Str
  | [] => none
  | c :: cs =>
    if c = '\n' then none
    else if dotEndOk cs then some ((c :: acc).reverse)
    else whereGroupAux (c :: acc) cs

/-- Match attempt of the WHERE pattern at the current position (group 1). -/
def whereAttempt (s : Str) : Option Str :=
  let w1 := s.takeWhile isSpaceChar
  if w1 = [] then none
  else
    let r1 := s.drop w1.length
    if startsWithCI ("where".data) r1 then
      let r2 := r1.drop 5
      let w2 := r2.takeWhile isSpaceChar
      if w2 = [] then none
      else
        let t := r2.drop w2.length
        match whereGroupAux [] t with
        | some g => some g
        | none => if t = [] ∧ 2 ≤ w2.length then some [w2.getLastD ' '] else none
    else none

/-- `re.search` of the WHERE pattern: group 1 of the leftmost match. -/
def where_search : Str → Option Str
  | [] => none
  | c :: cs =>
    match whereAttempt (c :: cs) with
    | some g => some g
    | none => where_search cs

/-! ## FOR ALL ENTRIES pattern

`re.search(r"for\s+all\s+entries\s+in\s+", stmt, re.IGNORECASE)`, used only
as a presence test. -/

/-- Match attempt of the FOR ALL ENTRIES pattern at the current position. -/
def faeAttempt (s : Str) : Bool :=
  if startsWithCI ("for".data) s then
    let r1 := s.drop 3
    let w1 := r1.takeWhile isSpaceChar
    let r2 := r1.drop w1.length
    if w1 ≠ [] ∧ startsWithCI ("all".data) r2 then
      let r3 := r2.drop 3
      let w2 := r3.takeWhile isSpaceChar
      let r4 := r3.drop w2.length
      if w2 ≠ [] ∧ startsWithCI ("entries".data) r4 then
        let r5 := r4.drop 7
        let w3 := r5.takeWhile isSpaceChar
        let r6 := r5.drop w3.length
        if w3 ≠ [] ∧ startsWithCI ("in".data) r6 then
          let r7 := r6.drop 2
          decide (r7.takeWhile isSpaceChar ≠ [])
        else false
      else false
    else false
  else false

/-- FOR ALL ENTRIES presence (`bool(re.search(...))`). -/
def fae_search : Str → Bool
  | [] => false
  | c :: cs => faeAttempt (c :: cs) || fae_search cs

/-! ## Textual substitutions of the table remapping and wildcard rules -/

/-- Match attempt of `\b<old>~` (case-insensitive) at the current position;
`prevWord` carries the `\b` context.  Returns the match length. -/
def tildeAttempt (tOld : Str) (prevWord : Bool) (s : Str) : Option Nat :=
  if !prevWord && startsWithCI (lower tOld) s && (s.drop tOld.length).take 1 == ['~'] then
    some (tOld.length + 1)
  else none

/-- Scanner core of `re.sub(rf'\b{old}~', f"{new}~", s, flags=re.IGNORECASE)`. -/
def tildeScan (tOld tNew : Str) : Nat → Bool → Str → Str
  | k + 1, _, c :: cs => tildeScan tOld tNew k (isWordChar c) cs
  | 0, prevWord, c :: cs =>
    match tildeAttempt tOld prevWord (c :: cs) with
    | some n => tNew ++ '~' :: tildeScan tOld tNew (n - 1) true cs
    | none => c :: tildeScan tOld tNew 0 (isWordChar c) cs
  | _, _, [] => []

/-- Replacement of `\b<old>~` by `<new>~`. -/
def sub_tilde (tOld tNew s : Str) : Str := tildeScan tOld tNew 0 false s

/-- Match attempt of `(\bfrom|\bjoin)\s+<old>\b` (case-insensitive) at the
current position.  Returns (group 1 as written, total match length). -/
def fromJoinAttempt (tOld : Str) (prevWord : Bool) (s : Str) : Option (Str × Nat) :=
  if !prevWord && (startsWithCI ("from".data) s || startsWithCI ("join".data) s) then
    let r := s.drop 4
    let sp := r.takeWhile isSpaceChar
    let r2 := r.drop sp.length
    if sp ≠ [] ∧ startsWithCI (lower tOld) r2 = true ∧
        ((r2.drop tOld.length).take 1).all (fun c => !isWordChar c) then
      some (s.take 4, 4 + sp.length + tOld.length)
    else none
  else none

/-- Scanner core of the `(\bfrom|\bjoin)\s+<old>\b` substitution; the
replacement is `group(1) ++ " " ++ new`. -/
def fromJoinScan (tOld tNew : Str) : Nat → Bool → Str → Str
  | k + 1, _, c :: cs => fromJoinScan tOld tNew k (isWordChar c) cs
  | 0, prevWord, c :: cs =>
    match fromJoinAttempt tOld prevWord (c :: cs) with
    | some (kw, n) => kw ++ ' ' :: tNew ++ fromJoinScan tOld tNew (n - 1) true cs
    | none => c :: fromJoinScan tOld tNew 0 (isWordChar c) cs
  | _, _, [] => []

/-- Replacement of `from <old>` / `join <old>` clauses by the new table. -/
def sub_from_join (tOld tNew s : Str) : Str := fromJoinScan tOld tNew 0 false s

/-- Match attempt of `select\s+\*\s+from` (case-insensitive) at the current
position.  Returns the match length. -/
def starAttempt (s : Str) : Option Nat :=
  if startsWithCI ("select".data) s then
    let r := s.drop 6
    let sp1 := r.takeWhile isSpaceChar
    let r2 := r.drop sp1.length
    if sp1 ≠ [] ∧ r2.take 1 = ['*'] then
      let r3 := r2.drop 1
      let sp2 := r3.takeWhile isSpaceChar
      let r4 := r3.drop sp2.length
      if sp2 ≠ [] ∧ startsWithCI ("from".data) r4 then
        some (6 + sp1.length + 1 + sp2.length + 4)
      else none
    else none
  else none

/-- Scanner core of `re.sub(r"select\s+\*\s+from", f"SELECT {fields} FROM", s)`. -/
def starScan (repl : Str) : Nat → Str → Str
  | k + 1, _ :: cs => starScan repl k cs
  | 0, c :: cs =>
    match starAttempt (c :: cs) with
    | some n => ("SELECT ".data ++ repl ++ " FROM".data) ++ starScan repl (n - 1) cs
    | none => c :: starScan repl 0 cs
  | _, [] => []

/-- Replacement of the `select * from` wildcard by an explicit field list. -/
def sub_star (repl s : Str) : Str := starScan repl 0 s

/-! ## Static configuration (the module-level dictionaries) -/

/-- Old table name to replacement table name. -/
def TABLE_MAP : List (Str × Str) :=
  [("MARC".data, "NSDM_V_MARC".data),
   ("MARD".data, "NSDM_V_MARD".data),
   ("KONV".data, "PRCD_ELEMENTS".data),
   ("J_1BBRANCH".data, "P_BUSINESSPLACE".data),
   ("J_1IMOVEND".data, "LFA1".data),
   ("J_1IMOCUST".data, "KNA1".data)]

/-- Recommended field lists per (replacement) table. -/
def SUGGESTED_FIELDS : List (Str × List Str) :=
  [("NSDM_V_MARC".data, ["MATNR".data, "WERKS".data]),
   ("NSDM_V_MARD".data, ["MATNR".data, "WERKS".data, "LGORT".data]),
   ("PRCD_ELEMENTS".data, ["KNUMV".data, "KPOSN".data, "STUNR".data, "ZAEHK".data]),
   ("P_BUSINESSPLACE".data, ["BUKRS,BRANCH".data]),
   ("LFA1".data, ["LIFNR".data]),
   ("KNA1".data, ["KUNNR".data])]

/-- Exact-key association-list lookup (Python `dict` access). -/
def alookup (k : Str) : List (Str × α) → Option α
  | [] => none
  | p :: ps => if p.1 == k then some p.2 else alookup k ps

/-- Python `", ".join`. -/
def joinCommaSp (l : List Str) : Str := List.intercalate (", ".data) l

/-- Python `" ".join`. -/
def joinSpace (l : List Str) : Str := List.intercalate (" ".data) l

/-- The `<field_list>` placeholder used when no suggestion exists. -/
def placeholder : Str := "<field_list>".data

/-! ## Messages (the literal texts of `analyze_and_suggest`) -/

def msg_replacement (tOld tNew : Str) : Str :=
  "Use replacement table `".data ++ tNew ++ "` instead of `".data ++ tOld ++ "`.".data

def msg_avoid_star_fields (fields : Str) : Str :=
  "Avoid `SELECT *`. Use only these fields: ".data ++ fields ++ ".".data

def msg_avoid_star_explicit : Str :=
  "Avoid `SELECT *`. Use an explicit field list.".data

def msg_select_single : Str :=
  "Do not use `SELECT SINGLE`. Prefer `SELECT ... UP TO 1 ROWS ORDER BY ... . ENDSELECT.` for clarity and compliance.".data

def msg_single_star_fields (fields : Str) : Str :=
  "Use only these fields instead of *: ".data ++ fields ++ ".".data

def msg_single_order_by : Str :=
  "Do NOT use `ORDER BY` with `SELECT SINGLE`. Use `UP TO 1 ROWS ... ORDER BY ...` instead.".data

def msg_fae_order (order_fields : Str) : Str :=
  "When using FOR ALL ENTRIES, do not use `ORDER BY` in SQL. Instead, sort the resulting internal table in ABAP.".data
    ++ (if order_fields ≠ [] then " Use: SORT <itab> BY ".data ++ order_fields ++ ".".data else [])

def msg_fae_sort (sort_fields : Str) : Str :=
  "For deterministic results, sort the resulting internal table in ABAP. Use: SORT <itab> BY ".data
    ++ sort_fields ++ ".".data

def msg_add_order_by (fields : Str) : Str :=
  "For deterministic results, add `ORDER BY ".data ++ fields ++ "` to the SELECT statement.".data

/-! ## The analysis stages (lines 61-183 of `analyze_and_suggest`) -/

/-- Lines 61-72: the `tables_to_replace` dict — the main table first, then
each mapped JOIN table in match order, without duplicates. -/
def tables_to_replace (stmt main_table_upper : Str) : List (Str × Str) :=
  let base := match alookup main_table_upper TABLE_MAP with
    | some n => [(main_table_upper, n)]
    | none => []
  (join_findall stmt).foldl (fun acc j =>
    let ju := upper j
    match alookup ju TABLE_MAP with
    | some n => if acc.any (fun p => p.1 == ju) then acc else acc ++ [(ju, n)]
    | none => acc) base

/-- Lines 74-80: one message per remapped table, and the two textual
substitutions applied to the adjusted statement, in dict order. -/
def apply_table_repl (pairs : List (Str × Str)) (adjusted : Str) : List Str × Str :=
  pairs.foldl (fun acc p =>
    (acc.1 ++ [msg_replacement p.1 p.2], sub_from_join p.1 p.2 (sub_tilde p.1 p.2 acc.2)))
    ([], adjusted)

/-- Lines 83-87: the raw field specification, `*` when the sub-match fails. -/
def fieldsOf (stmt : Str) : Str :=
  match sel_fields_match stmt with
  | some g => trim g
  | none => "*".data

/-- Line 93: `fields == "*" or fields.lower() == "distinct *"`. -/
def is_star_select (fields : Str) : Bool :=
  fields == "*".data || lower fields == "distinct *".data

/-- Line 117 guard: `fields.strip().lower().startswith("single")`. -/
def starts_single (fields : Str) : Bool :=
  startsWithCI ("single".data) (trim fields)

/-- Lines 113-114: the normalized explicit field list (drop `distinct`,
split on commas, strip, discard empties, rejoin). -/
def normalizeFields (fields : Str) : Str :=
  joinCommaSp (((splitOnComma (eraseAllSub ("distinct".data) fields)).map trim).filter (· ≠ []))

/-- Lines 89-114: wildcard handling.  Returns (messages, `explicit_fields`,
adjusted statement). -/
def starStage (fields adj_main adjusted : Str) : List Str × Str × Str :=
  if is_star_select fields then
    let replacement_fields := joinCommaSp ((alookup adj_main SUGGESTED_FIELDS).getD [])
    if replacement_fields ≠ [] then
      ([msg_avoid_star_fields replacement_fields], replacement_fields,
        sub_star replacement_fields adjusted)
    else
      ([msg_avoid_star_explicit], placeholder, sub_star placeholder adjusted)
  else
    ([], normalizeFields fields, adjusted)

/-- Lines 116-144: `SELECT SINGLE` handling.  Returns (messages, adjusted
statement); a non-single statement passes through unchanged. -/
def singleStage (fields explicit_fields adj_main stmt adjusted : Str) : List Str × Str :=
  if starts_single fields then
    let rf0 := trim ((trim fields).drop 7)
    let rf1 := if rf0 = [] then explicit_fields else rf0
    let star_part :=
      if rf1 == "*".data || lower rf1 == "distinct *".data then
        let replacement_fields := joinCommaSp ((alookup adj_main SUGGESTED_FIELDS).getD [])
        if replacement_fields ≠ [] then
          ([msg_single_star_fields replacement_fields], replacement_fields)
        else (([] : List Str), placeholder)
      else ([], rf1)
    let real_fields := star_part.2
    let order_by_clause :=
      if real_fields ≠ placeholder then "ORDER BY ".data ++ real_fields else []
    let where_clause :=
      match where_search stmt with
      | some g => "WHERE ".data ++ trim g
      | none => []
    let adjusted2 := "SELECT ".data ++ real_fields ++ " FROM ".data ++ adj_main ++ " ".data
      ++ where_clause ++ " UP TO 1 ROWS ".data ++ order_by_clause ++ ". ENDSELECT.".data
    let ob_msgs :=
      if containsSub ("order by".data) (lower stmt) then [msg_single_order_by] else []
    (msg_select_single :: star_part.1 ++ ob_msgs, adjusted2)
  else ([], adjusted)

/-- Lines 146-175: the FOR ALL ENTRIES / ORDER BY decision logic. -/
def orderingStage (stmt fields explicit_fields : Str) (star : Bool) (adj_main adjusted : Str) :
    List Str × Str :=
  let fae_present := fae_search stmt
  let order_by_match := order_by_search stmt
  if fae_present then
    match order_by_match with
    | some g => ([msg_fae_order (trim g)], sub_order_by adjusted)
    | none =>
      if !starts_single fields then
        let sort_fields :=
          if star then joinCommaSp ((alookup adj_main SUGGESTED_FIELDS).getD [])
          else explicit_fields
        if sort_fields ≠ [] ∧ sort_fields ≠ placeholder then
          ([msg_fae_sort sort_fields], adjusted)
        else ([], adjusted)
      else ([], adjusted)
  else
    if !starts_single fields && order_by_match == none then
      let order_by_fields :=
        if star then joinCommaSp ((alookup adj_main SUGGESTED_FIELDS).getD [])
        else explicit_fields
      if order_by_fields ≠ [] ∧ order_by_fields ≠ placeholder then
        ([msg_add_order_by order_by_fields],
          trim (rstripDots adjusted) ++ " ORDER BY ".data ++ order_by_fields ++ ".".data)
      else ([], adjusted)
    else ([], adjusted)

/-! ## Per-statement processing and the endpoint -/

/-- One finding: the concatenated message, the original snippet and the
rewritten statement. -/
structure Issue where
  suggestion : Str
  snippet : Str
  adjusted_code : Str
deriving DecidableEq

/-- The `tables_to_replace` dict of one statement (the statement is trimmed
first, as in the loop header). -/
def ttr_of (orig_stmt main_table : Str) : List (Str × Str) :=
  tables_to_replace (trim orig_stmt) (upper main_table)

/-- Line 89: `tables_to_replace.get(main_table_upper, main_table_upper)`. -/
def adj_main_of (orig_stmt main_table : Str) : Str :=
  (alookup (upper main_table) (ttr_of orig_stmt main_table)).getD (upper main_table)

/-- The table-remapping stage applied to the trimmed statement. -/
def table_stage_of (orig_stmt main_table : Str) : List Str × Str :=
  apply_table_repl (ttr_of orig_stmt main_table) (trim orig_stmt)

/-- The wildcard stage, applied to the output of the table stage. -/
def star_stage_of (orig_stmt main_table : Str) : List Str × Str × Str :=
  starStage (fieldsOf (trim orig_stmt)) (adj_main_of orig_stmt main_table)
    (table_stage_of orig_stmt main_table).2

/-- The `SELECT SINGLE` stage, applied to the output of the wildcard stage. -/
def single_stage_of (orig_stmt main_table : Str) : List Str × Str :=
  singleStage (fieldsOf (trim orig_stmt)) (star_stage_of orig_stmt main_table).2.1
    (adj_main_of orig_stmt main_table) (trim orig_stmt)
    (star_stage_of orig_stmt main_table).2.2

/-- The ordering-policy stage, applied to the output of the single stage. -/
def ordering_stage_of (orig_stmt main_table : Str) : List Str × Str :=
  orderingStage (trim orig_stmt) (fieldsOf (trim orig_stmt))
    (star_stage_of orig_stmt main_table).2.1
    (is_star_select (fieldsOf (trim orig_stmt)))
    (adj_main_of orig_stmt main_table)
    (single_stage_of orig_stmt main_table).2

/-- All messages of one statement, in stage order. -/
def issue_msgs_of (orig_stmt main_table : Str) : List Str :=
  (table_stage_of orig_stmt main_table).1 ++ (star_stage_of orig_stmt main_table).1
    ++ (single_stage_of orig_stmt main_table).1 ++ (ordering_stage_of orig_stmt main_table).1

/-- The loop body of `analyze_and_suggest` for one `findall` match:
`none` when no rule fires. -/
def processStmt (orig_stmt main_table : Str) : Option Issue :=
  if issue_msgs_of orig_stmt main_table = [] then none
  else some ⟨joinSpace (issue_msgs_of orig_stmt main_table), trim orig_stmt,
    (ordering_stage_of orig_stmt main_table).2⟩

/-- `analyze_and_suggest`: all issues of one code unit, in statement order. -/
def analyze_and_suggest (code : Str) : List Issue :=
  (select_full_findall code).filterMap (fun p => processStmt p.1 p.2)

/-- The request schema (`Unit` of the source; the name `Unit` is taken in
Lean).  `code` is optional with default empty. -/
structure Unit' where
  pgm_name : Str
  inc_name : Str
  type : Str
  name : Option Str := none
  class_implementation : Option Str := none
  start_line : Option Int := none
  end_line : Option Int := none
  code : Option Str := some []
deriving DecidableEq

/-- The response schema: the unit plus its issues. -/
structure UnitWithSuggestion extends Unit' where
  issues : List Issue
deriving DecidableEq

/-- The `/analyze` endpoint body: every unit, in order, analyzed on
`unit.code or ""` and returned with all its fields plus `issues`. -/
def analyze_code (units : List Unit') : List UnitWithSuggestion :=
  units.map (fun u => { toUnit' := u, issues := analyze_and_suggest (u.code.getD []) })

/-! ## Concrete scenarios -/

/-- Input of the first concrete scenario of the specification. -/
def c1_input : Str := "SELECT * FROM MARC WHERE WERKS = '1000'.".data

/-- The issue the engine actually produces for `c1_input`. -/
def c1_issue : Issue :=
  ⟨("Use replacement table `NSDM_V_MARC` instead of `MARC`. Avoid `SELECT *`. "
    ++ "Use only these fields: MATNR, WERKS. For deterministic results, "
    ++ "add `ORDER BY MATNR, WERKS` to the SELECT statement.").data,
   "SELECT * FROM MARC WHERE WERKS = '1000'.".data,
   "SELECT MATNR, WERKS FROM NSDM_V_MARC WHERE WERKS = '1000' ORDER BY MATNR, WERKS.".data⟩

/-- C1 as written is false: the adjusted code does not keep the original
period before the appended `ORDER BY` clause — the engine strips it
(`rstrip('.')`) before appending, so the claimed text is not produced. -/
theorem c1_counterexample :
    (analyze_and_suggest c1_input).map Issue.adjusted_code ≠
      ["SELECT MATNR, WERKS FROM NSDM_V_MARC WHERE WERKS = '1000'. ORDER BY MATNR, WERKS.".data] := by
  decide

/-- C1 (amended): the engine produces exactly one issue for `c1_input`; its
suggestion mentions the replacement table `NSDM_V_MARC` and the fields
`MATNR, WERKS`, and its adjusted code is exactly
`SELECT MATNR, WERKS FROM NSDM_V_MARC WHERE WERKS = '1000' ORDER BY MATNR, WERKS.`
(the original terminating period is stripped before the clause is appended). -/
theorem c1_amended :
    analyze_and_suggest c1_input = [c1_issue] ∧
    containsSub ("NSDM_V_MARC".data) c1_issue.suggestion = true ∧
    containsSub ("MATNR, WERKS".data) c1_issue.suggestion = true ∧
    c1_issue.adjusted_code =
      "SELECT MATNR, WERKS FROM NSDM_V_MARC WHERE WERKS = '1000' ORDER BY MATNR, WERKS.".data := by
  exact ⟨by decide, by decide, by decide, by decide⟩

/-- C7: for `SELECT SINGLE * FROM KNA1.` the engine produces one issue whose
adjusted code is the bounded-fetch idiom over `KNA1` with field list `KUNNR`,
an empty WHERE segment (hence the doubled space), bounded to one row and
ordered by `KUNNR`. -/
theorem c7_single_star :
    analyze_and_suggest ("SELECT SINGLE * FROM KNA1.".data) =
      [⟨("Do not use `SELECT SINGLE`. Prefer `SELECT ... UP TO 1 ROWS ORDER BY ... . "
          ++ "ENDSELECT.` for clarity and compliance. "
          ++ "Use only these fields instead of *: KUNNR.").data,
        "SELECT SINGLE * FROM KNA1.".data,
        "SELECT KUNNR FROM KNA1  UP TO 1 ROWS ORDER BY KUNNR. ENDSELECT.".data⟩] := by
  decide

/-! ## Helper lemmas about substring containment and message joining -/

theorem isPrefixOf_append_right {pat s : Str} (t : Str) (h : pat.isPrefixOf s = true) :
    pat.isPrefixOf (s ++ t) = true := by
  induction pat generalizing s with
  | nil => simp [List.isPrefixOf]
  | cons p ps ih =>
    cases s with
    | nil => simp [List.isPrefixOf] at h
    | cons c cs =>
      simp only [List.isPrefixOf, Bool.and_eq_true] at h ⊢
      exact ⟨h.1, ih h.2⟩

theorem containsSub_of_isPrefixOf {pat s : Str} (h : pat.isPrefixOf s = true) :
    containsSub pat s = true := by
  cases s with
  | nil =>
    cases pat with
    | nil => rfl
    | cons p ps => simp [List.isPrefixOf] at h
  | cons c cs => simp [containsSub, h]

theorem containsSub_append_left {pat s : Str} (a : Str) (h : containsSub pat s = true) :
    containsSub pat (a ++ s) = true := by
  induction a with
  | nil => simpa using h
  | cons c cs ih => simp [containsSub, ih]

theorem containsSub_append_right {pat s : Str} (t : Str) (h : containsSub pat s = true) :
    containsSub pat (s ++ t) = true := by
  induction s with
  | nil =>
    cases pat with
    | nil =>
      cases t with
      | nil => rfl
      | cons c cs => simp [containsSub, List.isPrefixOf]
    | cons p ps => simp [containsSub] at h
  | cons c cs ih =>
    simp only [containsSub, Bool.or_eq_true] at h
    rcases h with h | h
    · simp only [List.cons_append, containsSub, Bool.or_eq_true]
      exact Or.inl (isPrefixOf_append_right t h)
    · simp only [List.cons_append, containsSub, Bool.or_eq_true]
      exact Or.inr (ih h)

theorem joinSpace_nil : joinSpace [] = [] := rfl

theorem joinSpace_singleton (x : Str) : joinSpace [x] = x := by
  simp [joinSpace, List.intercalate]

theorem joinSpace_cons_cons (x y : Str) (t : List Str) :
    joinSpace (x :: y :: t) = x ++ " ".data ++ joinSpace (y :: t) := by
  simp [joinSpace, List.intercalate, List.intersperse]

/-- A substring of a member is a substring of the joined message. -/
theorem containsSub_joinSpace {pat x : Str} (l : List Str) (hx : x ∈ l)
    (h : containsSub pat x = true) : containsSub pat (joinSpace l) = true := by
  induction l with
  | nil => simp at hx
  | cons y t ih =>
    rcases List.mem_cons.1 hx with rfl | hx
    · cases t with
      | nil => simpa [joinSpace_singleton] using h
      | cons z zs =>
        rw [joinSpace_cons_cons, List.append_assoc]
        exact containsSub_append_right _ h
    · cases t with
      | nil => simp at hx
      | cons z zs =>
        rw [joinSpace_cons_cons]
        exact containsSub_append_left _ (ih hx)

/-! ## Structural lemmas about the stages -/

/-- The suggested-field string of a table. -/
def suggested_of (t : Str) : Str := joinCommaSp ((alookup t SUGGESTED_FIELDS).getD [])

/-- On a wildcard projection the star stage emits exactly one message, which
starts with the discouraging text, and rewrites with `sub_star` using the
suggested fields when available and the placeholder otherwise. -/
theorem starStage_star {fields : Str} (adj_main adjusted : Str)
    (h : is_star_select fields = true) :
    ∃ m, starStage fields adj_main adjusted =
        ([m],
         (if suggested_of adj_main = [] then placeholder else suggested_of adj_main),
         sub_star (if suggested_of adj_main = [] then placeholder else suggested_of adj_main)
           adjusted) ∧
      ("Avoid `SELECT *`.".data).isPrefixOf m = true := by
  by_cases hrf : suggested_of adj_main = []
  · refine ⟨msg_avoid_star_explicit, ?_, by decide⟩
    simp only [starStage, h, if_pos, hrf, suggested_of] at *
    simp [starStage, h, suggested_of] at hrf ⊢
    simp [hrf]
  · refine ⟨msg_avoid_star_fields (suggested_of adj_main), ?_, ?_⟩
    · simp only [starStage, h, if_true, suggested_of] at hrf ⊢
      simp [hrf]
    · have : ("Avoid `SELECT *`.".data).isPrefixOf ("Avoid `SELECT *`. Use only these fields: ".data) = true := by
        decide
      exact isPrefixOf_append_right _ this

/-- Any statement classified as a wildcard projection yields an issue whose
suggestion contains the `Avoid SELECT *` message. -/
theorem star_wildcard_issue (orig_stmt main_table : Str)
    (hstar : is_star_select (fieldsOf (trim orig_stmt)) = true) :
    ∃ iss, processStmt orig_stmt main_table = some iss ∧
      containsSub ("Avoid `SELECT *`.".data) iss.suggestion = true := by
  obtain ⟨m, hst, hm⟩ :=
    starStage_star (adj_main_of orig_stmt main_table) (table_stage_of orig_stmt main_table).2 hstar
  have hmem : m ∈ issue_msgs_of orig_stmt main_table := by
    unfold issue_msgs_of star_stage_of
    rw [hst]
    simp
  have hne : issue_msgs_of orig_stmt main_table ≠ [] := by
    intro hc
    rw [hc] at hmem
    simp at hmem
  refine ⟨⟨joinSpace (issue_msgs_of orig_stmt main_table), trim orig_stmt,
    (ordering_stage_of orig_stmt main_table).2⟩, ?_, ?_⟩
  · unfold processStmt
    rw [if_neg hne]
  · exact containsSub_joinSpace _ hmem (containsSub_of_isPrefixOf hm)

/-! ## Wildcard handling (C4, C10) -/

/-- Input of the C4 counterexample: a `distinct *` wildcard projection. -/
def c4_input : Str := "SELECT DISTINCT * FROM KNA1.".data

/-- C4 as written is false: for the non-single wildcard statement
`SELECT DISTINCT * FROM KNA1.` (suggested list `KUNNR` is non-empty) the
adjusted code still contains the wildcard `DISTINCT *` — the textual
substitution only targets `select * from`, so the wildcard is not replaced
by the suggested field list. -/
theorem c4_counterexample :
    is_star_select (fieldsOf (trim c4_input)) = true ∧
    starts_single (fieldsOf (trim c4_input)) = false ∧
    suggested_of (adj_main_of c4_input ("KNA1".data)) ≠ [] ∧
    (analyze_and_suggest c4_input).map Issue.adjusted_code =
      ["SELECT DISTINCT * FROM KNA1 ORDER BY KUNNR.".data] ∧
    containsSub ("DISTINCT *".data) ("SELECT DISTINCT * FROM KNA1 ORDER BY KUNNR.".data) = true := by
  exact ⟨by decide, by decide, by decide, by decide, by decide⟩

/-- C4 (amended): for every non-single-row statement with a wildcard
projection, a message discouraging `SELECT *` is emitted, and the wildcard
stage rewrites the (post-remapping) statement with the `select * from`
substitution, whose replacement list is the suggested field list of the
post-remapping main table when non-empty and the placeholder otherwise —
so a plain `*` projection is replaced, while a `distinct *` projection never
matches the substituted pattern and keeps its wildcard. -/
theorem c4_amended (orig_stmt main_table : Str)
    (hstar : is_star_select (fieldsOf (trim orig_stmt)) = true)
    (_hsingle : starts_single (fieldsOf (trim orig_stmt)) = false) :
    ∃ iss, processStmt orig_stmt main_table = some iss ∧
      containsSub ("Avoid `SELECT *`.".data) iss.suggestion = true ∧
      (star_stage_of orig_stmt main_table).2.2 =
        sub_star
          (if suggested_of (adj_main_of orig_stmt main_table) = [] then placeholder
            else suggested_of (adj_main_of orig_stmt main_table))
          (table_stage_of orig_stmt main_table).2 := by
  obtain ⟨iss, hp, hc⟩ := star_wildcard_issue orig_stmt main_table hstar
  obtain ⟨m, hst, _⟩ :=
    starStage_star (adj_main_of orig_stmt main_table) (table_stage_of orig_stmt main_table).2 hstar
  refine ⟨iss, hp, hc, ?_⟩
  unfold star_stage_of
  rw [hst]

/-- Witness for `c4_amended`. -/
theorem c4_amended_witness :
    is_star_select (fieldsOf (trim ("SELECT * FROM ZTAB.".data))) = true ∧
    ∃ iss, processStmt ("SELECT * FROM ZTAB.".data) ("ZTAB".data) = some iss ∧
      containsSub ("Avoid `SELECT *`.".data) iss.suggestion = true ∧
      (star_stage_of ("SELECT * FROM ZTAB.".data) ("ZTAB".data)).2.2 =
        sub_star
          (if suggested_of (adj_main_of ("SELECT * FROM ZTAB.".data) ("ZTAB".data)) = []
            then placeholder
            else suggested_of (adj_main_of ("SELECT * FROM ZTAB.".data) ("ZTAB".data)))
          (table_stage_of ("SELECT * FROM ZTAB.".data) ("ZTAB".data)).2 :=
  ⟨by decide, c4_amended ("SELECT * FROM ZTAB.".data) ("ZTAB".data) (by decide) (by decide)⟩

/-- C10: when the field-list sub-match fails (for instance a field list that
spans more than one line), the projection is classified as the wildcard `*`
and full wildcard handling applies: an issue is produced and its suggestion
carries the message discouraging `SELECT *`. -/
theorem c10_wildcard_fallback (orig_stmt main_table : Str)
    (hfail : sel_fields_match (trim orig_stmt) = none) :
    fieldsOf (trim orig_stmt) = "*".data ∧
    is_star_select (fieldsOf (trim orig_stmt)) = true ∧
    ∃ iss, processStmt orig_stmt main_table = some iss ∧
      containsSub ("Avoid `SELECT *`.".data) iss.suggestion = true := by
  have h1 : fieldsOf (trim orig_stmt) = "*".data := by
    unfold fieldsOf
    rw [hfail]
  have h2 : is_star_select (fieldsOf (trim orig_stmt)) = true := by
    rw [h1]
    decide
  exact ⟨h1, h2, star_wildcard_issue _ _ h2⟩

/-- Witness for `c10_wildcard_fallback`: a field list broken over two lines. -/
theorem c10_witness :
    sel_fields_match (trim ("SELECT MATNR,\nWERKS FROM KNA1.".data)) = none ∧
    (fieldsOf (trim ("SELECT MATNR,\nWERKS FROM KNA1.".data)) = "*".data ∧
      is_star_select (fieldsOf (trim ("SELECT MATNR,\nWERKS FROM KNA1.".data))) = true ∧
      ∃ iss, processStmt ("SELECT MATNR,\nWERKS FROM KNA1.".data) ("KNA1".data) = some iss ∧
        containsSub ("Avoid `SELECT *`.".data) iss.suggestion = true) :=
  ⟨by decide, c10_wildcard_fallback ("SELECT MATNR,\nWERKS FROM KNA1.".data) ("KNA1".data) (by decide)⟩

/-! ## Ordering policy on single-row statements (C3) -/

/-- Input of the C3 counterexample: a `SELECT SINGLE` with both
FOR ALL ENTRIES and ORDER BY. -/
def c3_input : Str := "SELECT SINGLE KUNNR FROM KNA1 FOR ALL ENTRIES IN ITAB ORDER BY KUNNR.".data

/-- C3 as written is false: for a single-row statement carrying both
`FOR ALL ENTRIES` and `ORDER BY`, the ordering policy does fire — it emits
the FOR ALL ENTRIES message and removes the `ORDER BY` clause from the
rebuilt bounded-fetch statement. -/
theorem c3_counterexample :
    starts_single (fieldsOf (trim c3_input)) = true ∧
    ordering_stage_of c3_input ("KNA1".data) ≠ ([], (single_stage_of c3_input ("KNA1".data)).2) ∧
    analyze_and_suggest c3_input =
      [⟨("Do not use `SELECT SINGLE`. Prefer `SELECT ... UP TO 1 ROWS ORDER BY ... . "
          ++ "ENDSELECT.` for clarity and compliance. "
          ++ "Do NOT use `ORDER BY` with `SELECT SINGLE`. "
          ++ "Use `UP TO 1 ROWS ... ORDER BY ...` instead. "
          ++ "When using FOR ALL ENTRIES, do not use `ORDER BY` in SQL. "
          ++ "Instead, sort the resulting internal table in ABAP. "
          ++ "Use: SORT <itab> BY KUNNR.").data,
        c3_input,
        "SELECT KUNNR FROM KNA1  UP TO 1 ROWS . ENDSELECT.".data⟩] := by
  exact ⟨by decide, by decide, by decide⟩

/-- C3 (amended): for a single-row statement the ordering policy emits no
message and leaves the adjusted statement unchanged unless the statement
carries both `FOR ALL ENTRIES` and an `ORDER BY`, in which case it emits the
FOR ALL ENTRIES message and applies the order-by removal to the adjusted
statement. -/
theorem c3_amended (stmt fields explicit_fields : Str) (star : Bool) (adj_main adjusted : Str)
    (hsingle : starts_single fields = true) :
    ((fae_search stmt = false ∨ order_by_search stmt = none) →
      orderingStage stmt fields explicit_fields star adj_main adjusted = ([], adjusted)) ∧
    (∀ g, fae_search stmt = true → order_by_search stmt = some g →
      orderingStage stmt fields explicit_fields star adj_main adjusted =
        ([msg_fae_order (trim g)], sub_order_by adjusted)) := by
  constructor
  · rintro (h | h)
    · simp [orderingStage, h, hsingle]
    · unfold orderingStage
      cases hf : fae_search stmt <;> simp [h, hsingle, hf]
  · intro g hf hob
    simp [orderingStage, hf, hob]

/-- Witness for `c3_amended`. -/
theorem c3_amended_witness :
    starts_single ("SINGLE KUNNR".data) = true ∧
    orderingStage ("SELECT SINGLE KUNNR FROM KNA1.".data) ("SINGLE KUNNR".data)
        ("SINGLE KUNNR".data) false ("KNA1".data) ("abc".data) = ([], "abc".data) :=
  ⟨by decide,
    (c3_amended ("SELECT SINGLE KUNNR FROM KNA1.".data) ("SINGLE KUNNR".data)
      ("SINGLE KUNNR".data) false ("KNA1".data) ("abc".data) (by decide)).1
      (Or.inr (by decide))⟩

/-! ## Sequential rewriting and snippet preservation (C2) -/

/-- C2: every produced issue carries the trimmed original snippet untouched,
its suggestion is the concatenation of all stage messages, and its adjusted
code is the ordering stage applied to the single stage applied to the
wildcard stage applied to the table-remapping stage of the original
statement — each later rewrite operating on the output of the earlier one. -/
theorem c2_sequential (orig_stmt main_table : Str) (iss : Issue)
    (h : processStmt orig_stmt main_table = some iss) :
    iss.snippet = trim orig_stmt ∧
    iss.suggestion = joinSpace (issue_msgs_of orig_stmt main_table) ∧
    iss.adjusted_code =
      (orderingStage (trim orig_stmt) (fieldsOf (trim orig_stmt))
        (starStage (fieldsOf (trim orig_stmt)) (adj_main_of orig_stmt main_table)
          (apply_table_repl (ttr_of orig_stmt main_table) (trim orig_stmt)).2).2.1
        (is_star_select (fieldsOf (trim orig_stmt)))
        (adj_main_of orig_stmt main_table)
        (singleStage (fieldsOf (trim orig_stmt))
          (starStage (fieldsOf (trim orig_stmt)) (adj_main_of orig_stmt main_table)
            (apply_table_repl (ttr_of orig_stmt main_table) (trim orig_stmt)).2).2.1
          (adj_main_of orig_stmt main_table) (trim orig_stmt)
          (starStage (fieldsOf (trim orig_stmt)) (adj_main_of orig_stmt main_table)
            (apply_table_repl (ttr_of orig_stmt main_table) (trim orig_stmt)).2).2.2).2).2 := by
  unfold processStmt at h
  by_cases hne : issue_msgs_of orig_stmt main_table = []
  · rw [if_pos hne] at h
    exact absurd h (by simp)
  · rw [if_neg hne] at h
    have : iss = ⟨joinSpace (issue_msgs_of orig_stmt main_table), trim orig_stmt,
        (ordering_stage_of orig_stmt main_table).2⟩ := by
      exact (Option.some_inj.1 h).symm
    subst this
    exact ⟨rfl, rfl, rfl⟩

/-- Witness for `c2_sequential`. -/
theorem c2_witness :
    (⟨"For deterministic results, add `ORDER BY A` to the SELECT statement.".data,
      "SELECT A FROM T.".data,
      "SELECT A FROM T ORDER BY A.".data⟩ : Issue).snippet = trim ("SELECT A FROM T.".data) ∧
    (⟨"For deterministic results, add `ORDER BY A` to the SELECT statement.".data,
      "SELECT A FROM T.".data,
      "SELECT A FROM T ORDER BY A.".data⟩ : Issue).suggestion =
        joinSpace (issue_msgs_of ("SELECT A FROM T.".data) ("T".data)) ∧
    (⟨"For deterministic results, add `ORDER BY A` to the SELECT statement.".data,
      "SELECT A FROM T.".data,
      "SELECT A FROM T ORDER BY A.".data⟩ : Issue).adjusted_code =
      (orderingStage (trim ("SELECT A FROM T.".data)) (fieldsOf (trim ("SELECT A FROM T.".data)))
        (starStage (fieldsOf (trim ("SELECT A FROM T.".data)))
          (adj_main_of ("SELECT A FROM T.".data) ("T".data))
          (apply_table_repl (ttr_of ("SELECT A FROM T.".data) ("T".data))
            (trim ("SELECT A FROM T.".data))).2).2.1
        (is_star_select (fieldsOf (trim ("SELECT A FROM T.".data))))
        (adj_main_of ("SELECT A FROM T.".data) ("T".data))
        (singleStage (fieldsOf (trim ("SELECT A FROM T.".data)))
          (starStage (fieldsOf (trim ("SELECT A FROM T.".data)))
            (adj_main_of ("SELECT A FROM T.".data) ("T".data))
            (apply_table_repl (ttr_of ("SELECT A FROM T.".data) ("T".data))
              (trim ("SELECT A FROM T.".data))).2).2.1
          (adj_main_of ("SELECT A FROM T.".data) ("T".data)) (trim ("SELECT A FROM T.".data))
          (starStage (fieldsOf (trim ("SELECT A FROM T.".data)))
            (adj_main_of ("SELECT A FROM T.".data) ("T".data))
            (apply_table_repl (ttr_of ("SELECT A FROM T.".data) ("T".data))
              (trim ("SELECT A FROM T.".data))).2).2.2).2).2 :=
  c2_sequential ("SELECT A FROM T.".data) ("T".data) _ (by decide)

/-! ## The endpoint frame property (C9) -/

/-- C9: the analyze endpoint returns one record per input record, in order,
with every original field unchanged (the whole `Unit'` part is the input
record) and the only augmentation being the `issues` list computed from that
record's code. -/
theorem c9_frame (units : List Unit') :
    (analyze_code units).length = units.length ∧
    ∀ (i : Nat) (u : Unit'), units[i]? = some u →
      (analyze_code units)[i]? =
        some (UnitWithSuggestion.mk u (analyze_and_suggest (u.code.getD []))) := by
  constructor
  · simp [analyze_code]
  · intro i u h
    simp [analyze_code, List.getElem?_map, h]

/-- Sample unit for the `c9_frame` witness. -/
def c9_unit : Unit' :=
  { pgm_name := "ZPROG".data, inc_name := "ZINC".data, type := "FORM".data,
    code := some ("SELECT A FROM T.".data) }

/-- Witness for `c9_frame`. -/
theorem c9_witness :
    (analyze_code [c9_unit]).length = [c9_unit].length ∧
    (analyze_code [c9_unit])[0]? =
      some (UnitWithSuggestion.mk c9_unit (analyze_and_suggest (c9_unit.code.getD []))) :=
  ⟨(c9_frame [c9_unit]).1, (c9_frame [c9_unit]).2 0 c9_unit rfl⟩

/-! ## Idempotence-shaped statements (C8) -/

/-- Input of the C8 counterexample: explicit field list, unmapped table,
`ORDER BY` present — but also `FOR ALL ENTRIES`. -/
def c8_input : Str :=
  "SELECT A FROM ZTAB FOR ALL ENTRIES IN ITAB WHERE K = ITAB-K ORDER BY A.".data

/-- C8 as written is false: this statement has an explicit non-wildcard field
list, references only tables absent from the mapping, and carries an
`ORDER BY`, yet the engine produces an issue for it (the `FOR ALL ENTRIES`
rule fires and strips the `ORDER BY`). -/
theorem c8_counterexample :
    tables_to_replace (trim c8_input) (upper ("ZTAB".data)) = [] ∧
    is_star_select (fieldsOf (trim c8_input)) = false ∧
    starts_single (fieldsOf (trim c8_input)) = false ∧
    order_by_search (trim c8_input) = some ("A".data) ∧
    analyze_and_suggest c8_input =
      [⟨("When using FOR ALL ENTRIES, do not use `ORDER BY` in SQL. "
          ++ "Instead, sort the resulting internal table in ABAP. "
          ++ "Use: SORT <itab> BY A.").data,
        c8_input,
        "SELECT A FROM ZTAB FOR ALL ENTRIES IN ITAB WHERE K = ITAB-K .".data⟩] := by
  exact ⟨by decide, by decide, by decide, by decide, by decide⟩

/-- C8 (amended): a sole extracted statement with an explicit non-wildcard
field list that is not `SELECT SINGLE`, only unmapped tables, an `ORDER BY`
clause and no `FOR ALL ENTRIES` produces no issues — so re-running the
engine on its own adjusted output of that shape yields an empty issue list. -/
theorem c8_amended (code span tbl g : Str)
    (h1 : select_full_findall code = [(span, tbl)])
    (h2 : tables_to_replace (trim span) (upper tbl) = [])
    (h3 : is_star_select (fieldsOf (trim span)) = false)
    (h4 : starts_single (fieldsOf (trim span)) = false)
    (h5 : fae_search (trim span) = false)
    (h6 : order_by_search (trim span) = some g) :
    analyze_and_suggest code = [] := by
  have hts : table_stage_of span tbl = ([], trim span) := by
    unfold table_stage_of ttr_of
    rw [h2]
    rfl
  have hst : star_stage_of span tbl = ([], normalizeFields (fieldsOf (trim span)), trim span) := by
    unfold star_stage_of
    rw [hts]
    simp [starStage, h3]
  have hsg : single_stage_of span tbl = ([], trim span) := by
    unfold single_stage_of
    rw [hst]
    simp [singleStage, h4]
  have hog : ordering_stage_of span tbl = ([], trim span) := by
    unfold ordering_stage_of
    rw [hst, hsg]
    simp [orderingStage, h4, h5, h6]
  have hmsgs : issue_msgs_of span tbl = [] := by
    unfold issue_msgs_of
    rw [hts, hst, hsg, hog]
    rfl
  have hp : processStmt span tbl = none := by
    unfold processStmt
    rw [if_pos hmsgs]
  unfold analyze_and_suggest
  rw [h1]
  simp [hp]

/-- Witness for `c8_amended`: the engine's own adjusted output of the C6
scenario. -/
theorem c8_amended_witness :
    analyze_and_suggest ("SELECT VBELN, POSNR FROM VBAP WHERE VBELN = '1' ORDER BY VBELN, POSNR.".data) = [] :=
  c8_amended ("SELECT VBELN, POSNR FROM VBAP WHERE VBELN = '1' ORDER BY VBELN, POSNR.".data)
    ("SELECT VBELN, POSNR FROM VBAP WHERE VBELN = '1' ORDER BY VBELN, POSNR.".data)
    ("VBAP".data) ("VBELN, POSNR".data)
    (by decide) (by decide) (by decide) (by decide) (by decide) (by decide)

/-! ## Appending the ORDER BY clause (C6) -/

/-- Stripping trailing periods from `core ++ "."` gives back `core` when
`core` does not itself end in a period. -/
theorem rstripDots_append (core : Str) (h : core.reverse.headD '.' ≠ '.') :
    rstripDots (core ++ ['.']) = core := by
  unfold rstripDots
  rw [List.reverse_append]
  cases hrev : core.reverse with
  | nil => simp [hrev] at h
  | cons c rest =>
    rw [hrev] at h
    have hcc : (c == '.') = false := by simpa using h
    have h1 : (['.'].reverse ++ c :: rest) = '.' :: c :: rest := by simp
    rw [h1]
    simp only [List.dropWhile_cons, hcc, beq_self_eq_true, if_true]
    rw [← hrev]
    simp

/-- C6: a sole extracted statement over unmapped tables with an explicit,
non-wildcard, already comma-normalized and non-degenerate field list, no
`ORDER BY`, no `FOR ALL ENTRIES` and not single-row yields exactly one
issue, whose adjusted code is the statement body with
` ORDER BY <same field list>` inserted before the terminating period and
whose suggestion is the add-ORDER-BY message for that list. -/
theorem c6_append_order (code span tbl core : Str)
    (h1 : select_full_findall code = [(span, tbl)])
    (h2 : tables_to_replace (trim span) (upper tbl) = [])
    (h3 : is_star_select (fieldsOf (trim span)) = false)
    (h4 : starts_single (fieldsOf (trim span)) = false)
    (h5 : fae_search (trim span) = false)
    (h6 : order_by_search (trim span) = none)
    (h7 : normalizeFields (fieldsOf (trim span)) = fieldsOf (trim span))
    (h8 : fieldsOf (trim span) ≠ [])
    (h9 : fieldsOf (trim span) ≠ placeholder)
    (h10 : trim span = core ++ ['.'])
    (h11 : core.reverse.headD '.' ≠ '.')
    (h12 : trim core = core) :
    analyze_and_suggest code =
      [⟨msg_add_order_by (fieldsOf (trim span)), trim span,
        core ++ " ORDER BY ".data ++ fieldsOf (trim span) ++ ".".data⟩] := by
  have hts : table_stage_of span tbl = ([], trim span) := by
    unfold table_stage_of ttr_of
    rw [h2]
    rfl
  have hst : star_stage_of span tbl = ([], fieldsOf (trim span), trim span) := by
    unfold star_stage_of
    rw [hts]
    simp [starStage, h3, h7]
  have hsg : single_stage_of span tbl = ([], trim span) := by
    unfold single_stage_of
    rw [hst]
    simp [singleStage, h4]
  have hcore : trim (rstripDots (trim span)) = core := by
    rw [h10, rstripDots_append core h11, h12]
  have hog : ordering_stage_of span tbl =
      ([msg_add_order_by (fieldsOf (trim span))],
        core ++ " ORDER BY ".data ++ fieldsOf (trim span) ++ ".".data) := by
    unfold ordering_stage_of
    rw [hst, hsg]
    simp only [orderingStage, h3, h4, h5, h6, Bool.not_false, Bool.false_eq_true, if_false,
      Bool.and_self, beq_self_eq_true, Bool.and_true, if_true]
    rw [if_pos ⟨h8, h9⟩, hcore]
  have hmsgs : issue_msgs_of span tbl = [msg_add_order_by (fieldsOf (trim span))] := by
    unfold issue_msgs_of
    rw [hts, hst, hsg, hog]
    rfl
  have hne : issue_msgs_of span tbl ≠ [] := by
    rw [hmsgs]
    simp
  have hp : processStmt span tbl =
      some ⟨msg_add_order_by (fieldsOf (trim span)), trim span,
        core ++ " ORDER BY ".data ++ fieldsOf (trim span) ++ ".".data⟩ := by
    unfold processStmt
    rw [if_neg hne, hmsgs, hog, joinSpace_singleton]
  unfold analyze_and_suggest
  rw [h1]
  simp [hp]

/-- Witness for `c6_append_order`. -/
theorem c6_witness :
    analyze_and_suggest ("SELECT VBELN, POSNR FROM VBAP WHERE VBELN = '1'.".data) =
      [⟨msg_add_order_by (fieldsOf (trim ("SELECT VBELN, POSNR FROM VBAP WHERE VBELN = '1'.".data))),
        trim ("SELECT VBELN, POSNR FROM VBAP WHERE VBELN = '1'.".data),
        "SELECT VBELN, POSNR FROM VBAP WHERE VBELN = '1'".data ++ " ORDER BY ".data
          ++ fieldsOf (trim ("SELECT VBELN, POSNR FROM VBAP WHERE VBELN = '1'.".data))
          ++ ".".data⟩] :=
  c6_append_order ("SELECT VBELN, POSNR FROM VBAP WHERE VBELN = '1'.".data)
    ("SELECT VBELN, POSNR FROM VBAP WHERE VBELN = '1'.".data) ("VBAP".data)
    ("SELECT VBELN, POSNR FROM VBAP WHERE VBELN = '1'".data)
    (by decide) (by decide) (by decide) (by decide) (by decide) (by decide)
    (by decide) (by decide) (by decide) (by decide) (by decide) (by decide)

/-! ## Removal of ORDER BY clauses leaves no clause behind (C5)

The order-by substitution scans left to right and removes every match of
the clause pattern.  The lemmas below establish that the removal pass
leaves a text in which the clause pattern no longer matches anywhere: every
removed match ends at a maximal class run, so the character following a
removal point is outside the class `[a-zA-Z0-9_,\s~]`, and a fresh match
can never straddle such a character. -/

/-- Head condition: empty, or the head fails the predicate. -/
def headNot (p : Char → Bool) : Str → Prop
  | [] => True
  | c :: _ => p c = false

theorem isPrefixOf_self (l : Str) : l.isPrefixOf l = true := by
  induction l with
  | nil => rfl
  | cons c cs ih => simp [List.isPrefixOf, ih]

theorem isOBClass_of_space {c : Char} (h : isSpaceChar c = true) : isOBClass c = true := by
  simp [isOBClass, h]

theorem lowerC_space {c : Char} (h : isSpaceChar c = true) : lowerC c = c := by
  have hd : c = ' ' ∨ c = '\t' ∨ c = '\n' ∨ c.toNat = 13 ∨ c.toNat = 11 ∨ c.toNat = 12 := by
    simpa [isSpaceChar] using h
  have hn : ¬(65 ≤ c.toNat ∧ c.toNat ≤ 90) := by
    rcases hd with rfl | rfl | rfl | h' | h' | h'
    all_goals first | decide | omega
  simp [lowerC, hn]

theorem isWordChar_of_lower_alpha {c : Char}
    (h : 97 ≤ (lowerC c).toNat ∧ (lowerC c).toNat ≤ 122) : isWordChar c = true := by
  by_cases hc : 65 ≤ c.toNat ∧ c.toNat ≤ 90
  · simp only [isWordChar, decide_eq_true_eq]
    exact Or.inl hc
  · rw [lowerC, if_neg hc] at h
    simp only [isWordChar, decide_eq_true_eq]
    exact Or.inr (Or.inl h)

theorem not_space_of_lower_alpha {c : Char}
    (h : 97 ≤ (lowerC c).toNat ∧ (lowerC c).toNat ≤ 122) : isSpaceChar c = false := by
  cases hsp : isSpaceChar c with
  | false => rfl
  | true =>
    exfalso
    rw [lowerC_space hsp] at h
    have hd : c = ' ' ∨ c = '\t' ∨ c = '\n' ∨ c.toNat = 13 ∨ c.toNat = 11 ∨ c.toNat = 12 := by
      simpa [isSpaceChar] using hsp
    rcases hd with rfl | rfl | rfl | h' | h' | h'
    all_goals first | exact absurd h (by decide) | omega

theorem startsWithCI_order_false {c : Char} (t : Str) (h : isOBClass c = false) :
    startsWithCI ("order".data) (c :: t) = false := by
  have ho : (lowerC c == 'o') = false := by
    cases hb : (lowerC c == 'o') with
    | false => rfl
    | true =>
      exfalso
      have he : lowerC c = 'o' := by simpa using hb
      have hw : isWordChar c = true :=
        isWordChar_of_lower_alpha (by rw [he]; exact ⟨by decide, by decide⟩)
      simp [isOBClass, hw] at h
  show startsWithCI ('o' :: ("rder".data)) (c :: t) = false
  simp [startsWithCI, ho]

theorem takeWhile_append_all {p : Char → Bool} (w d : Str)
    (hw : ∀ c ∈ w, p c = true) (hd : headNot p d) :
    (w ++ d).takeWhile p = w ∧ (w ++ d).drop w.length = d := by
  refine ⟨?_, List.drop_left w d⟩
  induction w with
  | nil =>
    cases d with
    | nil => rfl
    | cons h t =>
      simp only [List.nil_append, List.takeWhile_cons]
      rw [headNot] at hd
      simp [hd]
  | cons c cs ih =>
    have hc : p c = true := hw c (List.mem_cons_self c cs)
    simp only [List.cons_append, List.takeWhile_cons, hc, if_true]
    have := ih (fun x hx => hw x (List.mem_cons_of_mem c hx))
    simp [this]

theorem drop_takeWhile_length (p : Char → Bool) (l : Str) :
    l.drop (l.takeWhile p).length = l.dropWhile p := by
  induction l with
  | nil => rfl
  | cons c cs ih =>
    by_cases hc : p c = true
    · simp [List.takeWhile_cons, List.dropWhile_cons, hc, ih]
    · simp [List.takeWhile_cons, List.dropWhile_cons, hc]

theorem headNot_dropWhile (p : Char → Bool) (l : Str) : headNot p (l.dropWhile p) := by
  induction l with
  | nil => trivial
  | cons c cs ih =>
    by_cases hc : p c = true
    · simpa [List.dropWhile_cons, hc] using ih
    · simp only [List.dropWhile_cons]
      rw [if_neg (by simpa using hc)]
      rw [headNot]
      simpa using hc

theorem takeWhile_eq_nil_headNot {p : Char → Bool} {l : Str}
    (h : l.takeWhile p = []) : headNot p l := by
  cases l with
  | nil => trivial
  | cons c cs =>
    rw [headNot]
    by_cases hc : p c = true
    · simp [List.takeWhile_cons, hc] at h
    · simpa using hc

theorem takeWhile_dropWhile_split (p : Char → Bool) (l : Str) :
    l = l.takeWhile p ++ l.dropWhile p := (List.takeWhile_append_dropWhile p l).symm

theorem startsWithCI_decomp {pat s : Str} (h : startsWithCI pat s = true) :
    ∃ o t, s = o ++ t ∧ lower o = pat := by
  induction pat generalizing s with
  | nil => exact ⟨[], s, rfl, rfl⟩
  | cons p ps ih =>
    cases s with
    | nil => simp [startsWithCI] at h
    | cons c cs =>
      simp only [startsWithCI, Bool.and_eq_true, beq_iff_eq] at h
      obtain ⟨o, t, rfl, ho⟩ := ih h.2
      refine ⟨c :: o, t, rfl, ?_⟩
      simp only [lower, List.map_cons] at ho ⊢
      rw [h.1, ho]

theorem startsWithCI_of_lower {o : Str} (t pat : Str) (h : lower o = pat) :
    startsWithCI pat (o ++ t) = true := by
  induction o generalizing pat with
  | nil =>
    subst h
    rfl
  | cons c cs ih =>
    subst h
    simp only [lower, List.map_cons, List.cons_append, startsWithCI, beq_self_eq_true,
      Bool.true_and]
    exact ih (lower cs) rfl

theorem lower_length (o : Str) : (lower o).length = o.length := by simp [lower]

theorem lower_chars {o pat : Str} (h : lower o = pat) : ∀ c ∈ o, lowerC c ∈ pat := by
  subst h
  intro c hc
  exact List.mem_map_of_mem lowerC hc

theorem exists_init_getLastD (l : Str) (h : l ≠ []) (d : Char) :
    ∃ init c, l = init ++ [c] ∧ l.getLastD d = c := by
  induction l generalizing d with
  | nil => exact absurd rfl h
  | cons a t ih =>
    cases t with
    | nil => exact ⟨[], a, rfl, by simp⟩
    | cons b t' =>
      obtain ⟨init, c, heq, hlast⟩ := ih (by simp) a
      refine ⟨a :: init, c, by rw [List.cons_append, ← heq], ?_⟩
      rw [List.getLastD_cons, hlast]

/-- Every ORDER BY match decomposes into `order`, whitespace, `by`,
whitespace, a non-empty group of class characters and a rest whose head (if
any) is outside the class; the group either starts with a non-space class
character (greedy case) or is a single whitespace character (the backtrack
case for a whitespace run of length at least two). -/
theorem obAttempt_some_decomp {s g : Str} {n : Nat} (h : obAttempt s = some (g, n)) :
    ∃ o w1 b w2 rest,
      s = o ++ (w1 ++ (b ++ (w2 ++ (g ++ rest)))) ∧
      n = o.length + w1.length + b.length + w2.length + g.length ∧
      lower o = "order".data ∧ lower b = "by".data ∧
      w1 ≠ [] ∧ (∀ c ∈ w1, isSpaceChar c = true) ∧
      w2 ≠ [] ∧ (∀ c ∈ w2, isSpaceChar c = true) ∧
      g ≠ [] ∧ (∀ c ∈ g, isOBClass c = true) ∧
      headNot isOBClass rest ∧
      ((∃ h0 t0, g = h0 :: t0 ∧ isSpaceChar h0 = false) ∨
       (∃ c0, g = [c0] ∧ isSpaceChar c0 = true)) := by
  simp only [obAttempt] at h
  by_cases h1 : startsWithCI ("order".data) s = true
  case neg =>
    rw [if_neg h1] at h
    exact absurd h (by simp)
  rw [if_pos h1] at h
  obtain ⟨o, t1, rfl, ho⟩ := startsWithCI_decomp h1
  have ho5 : o.length = 5 := by
    rw [← lower_length o, ho]
    rfl
  have hdrop5 : (o ++ t1).drop 5 = t1 := by
    rw [← ho5]
    exact List.drop_left o t1
  rw [hdrop5] at h
  by_cases hw1 : t1.takeWhile isSpaceChar = []
  case pos =>
    rw [if_pos hw1] at h
    exact absurd h (by simp)
  rw [if_neg hw1] at h
  rw [drop_takeWhile_length isSpaceChar t1] at h
  have ht1 : t1 = t1.takeWhile isSpaceChar ++ t1.dropWhile isSpaceChar :=
    takeWhile_dropWhile_split _ _
  by_cases hby : startsWithCI ("by".data) (t1.dropWhile isSpaceChar) = true
  case neg =>
    rw [if_neg hby] at h
    exact absurd h (by simp)
  rw [if_pos hby] at h
  obtain ⟨b, t2, hd1eq, hb⟩ := startsWithCI_decomp hby
  have hb2 : b.length = 2 := by
    rw [← lower_length b, hb]
    rfl
  have hdrop2 : (t1.dropWhile isSpaceChar).drop 2 = t2 := by
    rw [hd1eq, ← hb2]
    exact List.drop_left b t2
  rw [hdrop2] at h
  by_cases hw2 : t2.takeWhile isSpaceChar = []
  case pos =>
    rw [if_pos hw2] at h
    exact absurd h (by simp)
  rw [if_neg hw2] at h
  rw [drop_takeWhile_length isSpaceChar t2] at h
  have ht2 : t2 = t2.takeWhile isSpaceChar ++ t2.dropWhile isSpaceChar :=
    takeWhile_dropWhile_split _ _
  by_cases hg0 : (t2.dropWhile isSpaceChar).takeWhile isOBClass = []
  · rw [if_pos hg0] at h
    by_cases hlen : 2 ≤ (t2.takeWhile isSpaceChar).length
    case neg =>
      rw [if_neg hlen] at h
      exact absurd h (by simp)
    rw [if_pos hlen] at h
    replace h := Option.some.inj h
    injection h with hga hnb
    subst hga
    subst hnb
    obtain ⟨init, c0, hw2eq, hlastd⟩ := exists_init_getLastD _ hw2 ' '
    rw [hlastd]
    have hmem0 : c0 ∈ List.takeWhile isSpaceChar t2 := by
      rw [hw2eq]
      exact List.mem_append_right init (by simp)
    have hsp0 : isSpaceChar c0 = true := List.mem_takeWhile_imp hmem0
    have hw2len : (t2.takeWhile isSpaceChar).length = init.length + 1 := by
      rw [hw2eq]
      simp
    have hinit_ne : init ≠ [] := by
      intro he
      rw [he] at hw2len
      simp at hw2len
      omega
    have hseq : t1.takeWhile isSpaceChar ++
        (b ++ (init ++ ([c0] ++ t2.dropWhile isSpaceChar))) = t1 := by
      rw [show init ++ ([c0] ++ t2.dropWhile isSpaceChar) =
          (init ++ [c0]) ++ t2.dropWhile isSpaceChar from by simp [List.append_assoc]]
      rw [← hw2eq, ← ht2, ← hd1eq, ← ht1]
    refine ⟨o, t1.takeWhile isSpaceChar, b, init, t2.dropWhile isSpaceChar, ?_, ?_, ho, hb,
      hw1, ?_, hinit_ne, ?_, ?_, ?_, ?_, ?_⟩
    · exact congrArg (fun x => o ++ x) hseq.symm
    · rw [ho5, hb2]
      simp only [List.length_singleton]
      omega
    · exact fun c hc => List.mem_takeWhile_imp hc
    · intro c hc
      have hmem : c ∈ List.takeWhile isSpaceChar t2 := by
        rw [hw2eq]
        exact List.mem_append_left _ hc
      exact List.mem_takeWhile_imp hmem
    · simp
    · intro c hc
      simp at hc
      subst hc
      exact isOBClass_of_space hsp0
    · exact takeWhile_eq_nil_headNot hg0
    · exact Or.inr ⟨c0, rfl, hsp0⟩
  · rw [if_neg hg0] at h
    replace h := Option.some.inj h
    injection h with hga hnb
    subst hga
    subst hnb
    have hd2split : t2.dropWhile isSpaceChar =
        (t2.dropWhile isSpaceChar).takeWhile isOBClass ++
          (t2.dropWhile isSpaceChar).dropWhile isOBClass :=
      takeWhile_dropWhile_split _ _
    have hseq : t1.takeWhile isSpaceChar ++
        (b ++ (t2.takeWhile isSpaceChar ++
          ((t2.dropWhile isSpaceChar).takeWhile isOBClass ++
            (t2.dropWhile isSpaceChar).dropWhile isOBClass))) = t1 := by
      rw [← hd2split, ← ht2, ← hd1eq, ← ht1]
    refine ⟨o, t1.takeWhile isSpaceChar, b, t2.takeWhile isSpaceChar,
      (t2.dropWhile isSpaceChar).dropWhile isOBClass, ?_, ?_, ho, hb, hw1, ?_, hw2, ?_, hg0,
      ?_, ?_, ?_⟩
    · exact congrArg (fun x => o ++ x) hseq.symm
    · rw [ho5, hb2]
    · exact fun c hc => List.mem_takeWhile_imp hc
    · exact fun c hc => List.mem_takeWhile_imp hc
    · exact fun c hc => List.mem_takeWhile_imp hc
    · exact headNot_dropWhile _ _
    · cases hd2 : t2.dropWhile isSpaceChar with
      | nil =>
        rw [hd2] at hg0
        simp at hg0
      | cons h0 t0 =>
        have hsph0 : isSpaceChar h0 = false := by
          have hh := headNot_dropWhile isSpaceChar t2
          rw [hd2] at hh
          exact hh
        by_cases hch0 : isOBClass h0 = true
        · refine Or.inl ⟨h0, t0.takeWhile isOBClass, ?_, hsph0⟩
          simp [List.takeWhile_cons, hch0]
        · exfalso
          rw [hd2] at hg0
          simp [List.takeWhile_cons, hch0] at hg0

theorem isOBClass_of_word {c : Char} (h : isWordChar c = true) : isOBClass c = true := by
  simp [isOBClass, h]

theorem headNot_space_of_headNot_class {t : Str} (h : headNot isOBClass t) :
    headNot isSpaceChar t := by
  cases t with
  | nil => trivial
  | cons c cs =>
    cases hsp : isSpaceChar c with
    | false => exact hsp
    | true =>
      have := isOBClass_of_space hsp
      rw [headNot] at h
      rw [h] at this
      exact absurd this (by simp)

theorem headNot_takeWhile_nil {p : Char → Bool} {t : Str} (h : headNot p t) :
    t.takeWhile p = [] := by
  cases t with
  | nil => rfl
  | cons c cs =>
    rw [headNot] at h
    simp [List.takeWhile_cons, h]

theorem ne_nil_of_lower {b pat : Str} (hb : lower b = pat) (hne : pat ≠ []) : b ≠ [] := by
  intro he
  rw [he] at hb
  exact hne hb.symm

theorem headNot_space_alpha_append {b pat : Str} (t : Str) (hb : lower b = pat)
    (hne : pat ≠ []) (hpat : ∀ c ∈ pat, 97 ≤ c.toNat ∧ c.toNat ≤ 122) :
    headNot isSpaceChar (b ++ t) := by
  cases b with
  | nil => exact absurd rfl (ne_nil_of_lower hb hne)
  | cons c cs =>
    show isSpaceChar c = false
    refine not_space_of_lower_alpha (hpat _ ?_)
    rw [← hb]
    exact List.mem_map_of_mem lowerC (List.mem_cons_self c cs)

/-- Reconstruction, greedy case: the clause pattern matches any text of the
shape `order`-ws-`by`-ws followed by a class character that is not
whitespace. -/
theorem obAttempt_reconstruct {o w1 b w2 : Str} {h0 : Char} (t0 : Str)
    (ho : lower o = "order".data) (hb : lower b = "by".data)
    (hw1ne : w1 ≠ []) (hw1sp : ∀ c ∈ w1, isSpaceChar c = true)
    (hw2ne : w2 ≠ []) (hw2sp : ∀ c ∈ w2, isSpaceChar c = true)
    (hcl : isOBClass h0 = true) (hsp : isSpaceChar h0 = false) :
    obAttempt (o ++ (w1 ++ (b ++ (w2 ++ (h0 :: t0))))) ≠ none := by
  have ho5 : o.length = 5 := by
    rw [← lower_length o, ho]
    rfl
  have hb2 : b.length = 2 := by
    rw [← lower_length b, hb]
    rfl
  simp only [obAttempt]
  rw [if_pos (startsWithCI_of_lower _ _ ho)]
  have hd5 : (o ++ (w1 ++ (b ++ (w2 ++ (h0 :: t0))))).drop 5 = w1 ++ (b ++ (w2 ++ (h0 :: t0))) := by
    rw [← ho5]
    exact List.drop_left _ _
  rw [hd5]
  have hheadb : headNot isSpaceChar (b ++ (w2 ++ (h0 :: t0))) :=
    headNot_space_alpha_append _ hb (by simp) (by decide)
  have htw1 := (takeWhile_append_all w1 (b ++ (w2 ++ (h0 :: t0))) hw1sp hheadb).1
  rw [htw1, if_neg hw1ne, List.drop_left]
  rw [if_pos (startsWithCI_of_lower _ _ hb)]
  have hd2 : (b ++ (w2 ++ (h0 :: t0))).drop 2 = w2 ++ (h0 :: t0) := by
    rw [← hb2]
    exact List.drop_left _ _
  rw [hd2]
  have htw2 := (takeWhile_append_all w2 (h0 :: t0) hw2sp hsp).1
  rw [htw2, if_neg hw2ne, List.drop_left]
  have htg : (h0 :: t0).takeWhile isOBClass = h0 :: t0.takeWhile isOBClass := by
    simp [List.takeWhile_cons, hcl]
  rw [htg, if_neg (by simp)]
  simp

/-- Reconstruction, backtrack case: the clause pattern also matches when the
whitespace run after `by` has length at least two and is followed by a
non-class character (or the end of the text). -/
theorem obAttempt_reconstruct_bt {o w1 b w2 : Str} {c0 : Char} (t : Str)
    (ho : lower o = "order".data) (hb : lower b = "by".data)
    (hw1ne : w1 ≠ []) (hw1sp : ∀ c ∈ w1, isSpaceChar c = true)
    (hw2ne : w2 ≠ []) (hw2sp : ∀ c ∈ w2, isSpaceChar c = true)
    (hsp0 : isSpaceChar c0 = true) (ht : headNot isOBClass t) :
    obAttempt (o ++ (w1 ++ (b ++ (w2 ++ ([c0] ++ t))))) ≠ none := by
  have ho5 : o.length = 5 := by
    rw [← lower_length o, ho]
    rfl
  have hb2 : b.length = 2 := by
    rw [← lower_length b, hb]
    rfl
  have hw2c : w2 ++ ([c0] ++ t) = (w2 ++ [c0]) ++ t := by
    simp [List.append_assoc]
  rw [hw2c]
  simp only [obAttempt]
  rw [if_pos (startsWithCI_of_lower _ _ ho)]
  have hd5 : (o ++ (w1 ++ (b ++ ((w2 ++ [c0]) ++ t)))).drop 5 =
      w1 ++ (b ++ ((w2 ++ [c0]) ++ t)) := by
    rw [← ho5]
    exact List.drop_left _ _
  rw [hd5]
  have hheadb : headNot isSpaceChar (b ++ ((w2 ++ [c0]) ++ t)) :=
    headNot_space_alpha_append _ hb (by simp) (by decide)
  have htw1 := (takeWhile_append_all w1 (b ++ ((w2 ++ [c0]) ++ t)) hw1sp hheadb).1
  rw [htw1, if_neg hw1ne, List.drop_left]
  rw [if_pos (startsWithCI_of_lower _ _ hb)]
  have hd2 : (b ++ ((w2 ++ [c0]) ++ t)).drop 2 = (w2 ++ [c0]) ++ t := by
    rw [← hb2]
    exact List.drop_left _ _
  rw [hd2]
  have hw2csp : ∀ c ∈ w2 ++ [c0], isSpaceChar c = true := by
    intro c hc
    rcases List.mem_append.1 hc with hc | hc
    · exact hw2sp c hc
    · simp at hc
      subst hc
      exact hsp0
  have htw2 := (takeWhile_append_all (w2 ++ [c0]) t hw2csp (headNot_space_of_headNot_class ht)).1
  rw [htw2, if_neg (by simp), List.drop_left]
  rw [headNot_takeWhile_nil ht, if_pos rfl]
  have hlen : 2 ≤ (w2 ++ [c0]).length := by
    have : 1 ≤ w2.length := by
      cases w2 with
      | nil => exact absurd rfl hw2ne
      | cons a l => simp
    simp only [List.length_append, List.length_singleton]
    omega
  rw [if_pos hlen]
  simp

/-- Transfer of match failure: if the clause pattern does not match at the
start of `x ++ u`, where `u` begins with a non-space class character, then
it also does not match at the start of `x ++ r` for any `r` that is empty
or begins with a non-class character. -/
theorem obAttempt_transfer {x u r : Str}
    (hu : ∃ hc tc, u = hc :: tc ∧ isOBClass hc = true ∧ isSpaceChar hc = false)
    (hr : headNot isOBClass r)
    (hnone : obAttempt (x ++ u) = none) :
    obAttempt (x ++ r) = none := by
  cases hq : obAttempt (x ++ r) with
  | none => rfl
  | some p =>
    exfalso
    obtain ⟨g, n⟩ := p
    obtain ⟨o, w1, b, w2, rest, hs, hn, ho, hb, hw1ne, hw1sp, hw2ne, hw2sp, hgne, hgcl,
      hrest, hdisj⟩ := obAttempt_some_decomp hq
    obtain ⟨hc, tc, rfl, hccl, hcsp⟩ := hu
    have hsP : x ++ r = (o ++ w1 ++ b ++ w2 ++ g) ++ rest := by
      rw [hs]
      simp [List.append_assoc]
    have hPlen : (o ++ w1 ++ b ++ w2 ++ g).length = n := by
      simp only [List.length_append]
      omega
    have hPclass : ∀ c ∈ o ++ w1 ++ b ++ w2 ++ g, isOBClass c = true := by
      intro c hcm
      simp only [List.mem_append] at hcm
      rcases hcm with (((hcm | hcm) | hcm) | hcm) | hcm
      · have hlc := lower_chars ho c hcm
        have hrange : 97 ≤ (lowerC c).toNat ∧ (lowerC c).toNat ≤ 122 :=
          (by decide : ∀ d ∈ ("order".data), 97 ≤ d.toNat ∧ d.toNat ≤ 122) _ hlc
        exact isOBClass_of_word (isWordChar_of_lower_alpha hrange)
      · exact isOBClass_of_space (hw1sp c hcm)
      · have hlc := lower_chars hb c hcm
        have hrange : 97 ≤ (lowerC c).toNat ∧ (lowerC c).toNat ≤ 122 :=
          (by decide : ∀ d ∈ ("by".data), 97 ≤ d.toNat ∧ d.toNat ≤ 122) _ hlc
        exact isOBClass_of_word (isWordChar_of_lower_alpha hrange)
      · exact isOBClass_of_space (hw2sp c hcm)
      · exact hgcl c hcm
    have hnx : n ≤ x.length := by
      by_contra hgt
      push_neg at hgt
      cases r with
      | nil =>
        rw [List.append_nil] at hsP
        have hle : (o ++ w1 ++ b ++ w2 ++ g).length ≤ x.length := by
          rw [hsP]
          simp
        omega
      | cons hr0 tr =>
        have hr0cl : isOBClass hr0 = false := hr
        have htaken : (x ++ (hr0 :: tr)).take n = o ++ w1 ++ b ++ w2 ++ g := by
          rw [hsP]
          exact List.take_left' hPlen
        have hmem : hr0 ∈ (x ++ (hr0 :: tr)).take n := by
          rw [List.take_append_eq_append_take]
          refine List.mem_append_right _ ?_
          have hsplit : n - x.length = (n - x.length - 1) + 1 := by omega
          rw [hsplit]
          simp
        rw [htaken] at hmem
        have hbad := hPclass hr0 hmem
        rw [hr0cl] at hbad
        exact absurd hbad (by simp)
    have hxtake : x.take n = o ++ w1 ++ b ++ w2 ++ g := by
      have h1 : (x ++ r).take n = x.take n := List.take_append_of_le_length hnx
      rw [← h1, hsP]
      exact List.take_left' hPlen
    have hxP : x = (o ++ w1 ++ b ++ w2 ++ g) ++ x.drop n := by
      conv_lhs => rw [← List.take_append_drop n x]
      rw [hxtake]
    have hrestz : rest = x.drop n ++ r := by
      have h1 : (x ++ r).drop n = x.drop n ++ r := List.drop_append_of_le_length hnx
      rw [hsP, List.drop_left' hPlen] at h1
      exact h1
    obtain ⟨z, hzx⟩ : ∃ z, z = x.drop n := ⟨_, rfl⟩
    rw [← hzx] at hxP hrestz
    rcases hdisj with ⟨h0, t0, hgeq, hgsp⟩ | ⟨c0, hgeq, hc0sp⟩
    · have happly := obAttempt_reconstruct (t0 ++ (z ++ (hc :: tc))) ho hb hw1ne hw1sp
        hw2ne hw2sp (hgcl h0 (by rw [hgeq]; simp)) hgsp
      apply happly
      have hx2 : x ++ (hc :: tc) =
          o ++ (w1 ++ (b ++ (w2 ++ (h0 :: (t0 ++ (z ++ (hc :: tc))))))) := by
        rw [hxP, hgeq]
        simp [List.append_assoc]
      rw [← hx2]
      exact hnone
    · cases z with
      | nil =>
        have happly := obAttempt_reconstruct tc ho hb hw1ne hw1sp
          (by simp : w2 ++ [c0] ≠ [])
          (by
            intro c hcm
            rcases List.mem_append.1 hcm with hcm | hcm
            · exact hw2sp c hcm
            · simp at hcm
              subst hcm
              exact hc0sp)
          hccl hcsp
        apply happly
        have hx2 : x ++ (hc :: tc) = o ++ (w1 ++ (b ++ ((w2 ++ [c0]) ++ (hc :: tc)))) := by
          rw [hxP, hgeq]
          simp [List.append_assoc]
        rw [← hx2]
        exact hnone
      | cons hz0 tz =>
        rw [hrestz] at hrest
        have happly := obAttempt_reconstruct_bt ((hz0 :: tz) ++ (hc :: tc)) ho hb hw1ne hw1sp
          hw2ne hw2sp hc0sp hrest
        apply happly
        have hx2 : x ++ (hc :: tc) =
            o ++ (w1 ++ (b ++ (w2 ++ ([c0] ++ ((hz0 :: tz) ++ (hc :: tc)))))) := by
          rw [hxP, hgeq]
          simp [List.append_assoc]
        rw [← hx2]
        exact hnone

/-- A successful match consumes at least one character and leaves a rest
whose head (if any) is outside the class. -/
theorem obAttempt_rest {s g : Str} {n : Nat} (h : obAttempt s = some (g, n)) :
    1 ≤ n ∧ headNot isOBClass (s.drop n) := by
  obtain ⟨o, w1, b, w2, rest, hs, hn, ho, hb, hw1ne, _, _, _, _, _, hrest, _⟩ :=
    obAttempt_some_decomp h
  have ho5 : o.length = 5 := by
    rw [← lower_length o, ho]
    rfl
  have hsP : s = (o ++ w1 ++ b ++ w2 ++ g) ++ rest := by
    rw [hs]
    simp [List.append_assoc]
  have hPlen : (o ++ w1 ++ b ++ w2 ++ g).length = n := by
    simp only [List.length_append]
    omega
  constructor
  · omega
  · rw [hsP, List.drop_left' hPlen]
    exact hrest

/-- A successful match begins with a non-space class character (the `o` of
`order`). -/
theorem obAttempt_head {u g : Str} {n : Nat} (h : obAttempt u = some (g, n)) :
    ∃ hc tc, u = hc :: tc ∧ isOBClass hc = true ∧ isSpaceChar hc = false := by
  obtain ⟨o, w1, b, w2, rest, hs, _, ho, _, _, _, _, _, _, _, _, _⟩ :=
    obAttempt_some_decomp h
  cases o with
  | nil => simp [lower] at ho
  | cons oc ot =>
    have hoc : lowerC oc = 'o' := by
      simp only [lower, List.map_cons] at ho
      have := congrArg (fun l => l.headD ' ') ho
      simpa using this
    have hrange : 97 ≤ (lowerC oc).toNat ∧ (lowerC oc).toNat ≤ 122 := by
      rw [hoc]
      exact ⟨by decide, by decide⟩
    refine ⟨oc, ot ++ (w1 ++ (b ++ (w2 ++ (g ++ rest)))), ?_, ?_, ?_⟩
    · rw [hs]
      rfl
    · exact isOBClass_of_word (isWordChar_of_lower_alpha hrange)
    · exact not_space_of_lower_alpha hrange

theorem obAttempt_none_of_not_order {s : Str}
    (h : startsWithCI ("order".data) s = false) : obAttempt s = none := by
  simp only [obAttempt, h]
  rfl

/-- Skipping `k` characters in the substitution scanner is dropping them. -/
theorem obScan_skip : ∀ (t : Str) (k : Nat), obScan k t = obScan 0 (t.drop k) := by
  intro t
  induction t with
  | nil => intro k; cases k <;> rfl
  | cons c cs ih =>
    intro k
    cases k with
    | zero => rfl
    | succ k' =>
      show obScan k' cs = obScan 0 ((c :: cs).drop (k' + 1))
      rw [List.drop_succ_cons]
      exact ih k'

theorem sub_order_by_some {c : Char} {cs g : Str} {n : Nat}
    (h : obAttempt (c :: cs) = some (g, n)) :
    sub_order_by (c :: cs) = sub_order_by ((c :: cs).drop n) := by
  have hn1 : 1 ≤ n := (obAttempt_rest h).1
  cases n with
  | zero => exact absurd hn1 (by simp)
  | succ k =>
    show obScan 0 (c :: cs) = obScan 0 ((c :: cs).drop (k + 1))
    simp only [obScan, h, Nat.add_sub_cancel, List.drop_succ_cons]
    exact obScan_skip cs k

theorem sub_order_by_none {c : Char} {cs : Str} (h : obAttempt (c :: cs) = none) :
    sub_order_by (c :: cs) = c :: sub_order_by cs := by
  show obScan 0 (c :: cs) = c :: obScan 0 cs
  rw [obScan, h]

/-- The substitution keeps a leading non-class character in place. -/
theorem sub_order_by_headNot {d : Str} (h : headNot isOBClass d) :
    headNot isOBClass (sub_order_by d) := by
  cases d with
  | nil => trivial
  | cons c cs =>
    have hcl : isOBClass c = false := h
    rw [sub_order_by_none (obAttempt_none_of_not_order (startsWithCI_order_false cs hcl))]
    exact hcl

/-- Structure of the substitution output: either the identity (no match), or
a shared prefix followed, in the input, by a match and, in the output, by a
tail whose head is outside the class. -/
theorem sub_order_by_structure : ∀ (m : Nat) (s : Str), s.length ≤ m →
    sub_order_by s = s ∨
      ∃ a u r, s = a ++ u ∧ sub_order_by s = a ++ r ∧ headNot isOBClass r ∧
        (∃ hc tc, u = hc :: tc ∧ isOBClass hc = true ∧ isSpaceChar hc = false) := by
  intro m
  induction m with
  | zero =>
    intro s hs
    rw [List.length_eq_zero.1 (Nat.le_zero.1 hs)]
    left
    rfl
  | succ m ih =>
    intro s hs
    cases s with
    | nil =>
      left
      rfl
    | cons c cs =>
      cases hat : obAttempt (c :: cs) with
      | some p =>
        obtain ⟨g, n⟩ := p
        right
        refine ⟨[], c :: cs, sub_order_by ((c :: cs).drop n), rfl, ?_, ?_, obAttempt_head hat⟩
        · rw [List.nil_append]
          exact sub_order_by_some hat
        · exact sub_order_by_headNot (obAttempt_rest hat).2
      | none =>
        rcases ih cs (by simp only [List.length_cons] at hs; omega) with hid | hstr
        · left
          rw [sub_order_by_none hat, hid]
        · obtain ⟨a, u, r, hcs, hsub, hhr, hu⟩ := hstr
          right
          refine ⟨c :: a, u, r, by rw [hcs]; rfl, ?_, hhr, hu⟩
          rw [sub_order_by_none hat, hsub]
          rfl

/-- Match failure survives the substitution of the tail. -/
theorem obAttempt_cons_sub {c : Char} {cs : Str} (h : obAttempt (c :: cs) = none) :
    obAttempt (c :: sub_order_by cs) = none := by
  rcases sub_order_by_structure cs.length cs (Nat.le_refl _) with hid | hstr
  · rw [hid]
    exact h
  · obtain ⟨a, u, r, hcs, hsub, hhr, hu⟩ := hstr
    rw [hsub]
    have h' : obAttempt ((c :: a) ++ u) = none := by
      rw [show (c :: a) ++ u = c :: (a ++ u) from rfl, ← hcs]
      exact h
    exact obAttempt_transfer hu hhr h'

/-- After the ORDER BY substitution pass, the clause pattern matches nowhere. -/
theorem order_by_search_sub : ∀ (m : Nat) (s : Str), s.length ≤ m →
    order_by_search (sub_order_by s) = none := by
  intro m
  induction m with
  | zero =>
    intro s hs
    rw [List.length_eq_zero.1 (Nat.le_zero.1 hs)]
    rfl
  | succ m ih =>
    intro s hs
    cases s with
    | nil => rfl
    | cons c cs =>
      cases hat : obAttempt (c :: cs) with
      | some p =>
        obtain ⟨g, n⟩ := p
        rw [sub_order_by_some hat]
        refine ih _ ?_
        have hn1 : 1 ≤ n := (obAttempt_rest hat).1
        simp only [List.length_drop, List.length_cons] at *
        omega
      | none =>
        rw [sub_order_by_none hat]
        show (match obAttempt (c :: sub_order_by cs) with
          | some (g, _) => some g
          | none => order_by_search (sub_order_by cs)) = none
        rw [obAttempt_cons_sub hat]
        exact ih cs (by simp only [List.length_cons] at hs; omega)

/-- No ORDER BY clause survives the removal pass. -/
theorem order_by_search_sub_order_by (s : Str) :
    order_by_search (sub_order_by s) = none :=
  order_by_search_sub s.length s (Nat.le_refl _)

/-- C5: for every statement containing `FOR ALL ENTRIES` together with an
`ORDER BY` clause (with a non-empty field list), the engine produces an
issue whose suggestion names the original order-by field list for an
in-memory sort, and whose adjusted code contains no `ORDER BY` clause (the
engine's own clause pattern no longer matches anywhere in it). -/
theorem c5_fae_order_by (orig_stmt main_table g : Str)
    (hfae : fae_search (trim orig_stmt) = true)
    (hob : order_by_search (trim orig_stmt) = some g)
    (hg : trim g ≠ []) :
    ∃ iss, processStmt orig_stmt main_table = some iss ∧
      containsSub (" Use: SORT <itab> BY ".data ++ (trim g ++ ".".data)) iss.suggestion = true ∧
      order_by_search iss.adjusted_code = none := by
  have hog : ordering_stage_of orig_stmt main_table =
      ([msg_fae_order (trim g)], sub_order_by (single_stage_of orig_stmt main_table).2) := by
    unfold ordering_stage_of
    simp [orderingStage, hfae, hob]
  have hmem : msg_fae_order (trim g) ∈ issue_msgs_of orig_stmt main_table := by
    unfold issue_msgs_of
    rw [hog]
    simp
  have hne : issue_msgs_of orig_stmt main_table ≠ [] := by
    intro hc
    rw [hc] at hmem
    simp at hmem
  refine ⟨⟨joinSpace (issue_msgs_of orig_stmt main_table), trim orig_stmt,
    (ordering_stage_of orig_stmt main_table).2⟩, ?_, ?_, ?_⟩
  · unfold processStmt
    rw [if_neg hne]
  · have hpat : containsSub (" Use: SORT <itab> BY ".data ++ (trim g ++ ".".data))
        (msg_fae_order (trim g)) = true := by
      unfold msg_fae_order
      rw [if_pos hg]
      exact containsSub_append_left _ (containsSub_of_isPrefixOf (isPrefixOf_self _))
    exact containsSub_joinSpace _ hmem hpat
  · show order_by_search (ordering_stage_of orig_stmt main_table).2 = none
    rw [hog]
    exact order_by_search_sub_order_by _

/-- Input of the C5 witness. -/
def c5_input : Str := "SELECT K FROM ZT FOR ALL ENTRIES IN I WHERE X = I-X ORDER BY K.".data

/-- Witness for `c5_fae_order_by`. -/
theorem c5_witness :
    fae_search (trim c5_input) = true ∧
    order_by_search (trim c5_input) = some ("K".data) ∧
    trim ("K".data) ≠ [] ∧
    (∃ iss, processStmt c5_input ("ZT".data) = some iss ∧
      containsSub (" Use: SORT <itab> BY ".data ++ (trim ("K".data) ++ ".".data))
        iss.suggestion = true ∧
      order_by_search iss.adjusted_code = none) :=
  ⟨by decide, by decide, by decide,
    c5_fae_order_by c5_input ("ZT".data) ("K".data) (by decide) (by decide) (by decide)⟩
